import Mathlib

/-!
Verification of the conversation and progression engine of the
financial-security bot (source: `bot.py`).

Each definition in this file is a shallow embedding of a function of the
source file.  Python dictionaries holding a fixed set of keys become
structures, the SQLAlchemy session becomes explicit state passing with an
explicit commit/rollback discipline (`with SessionLocal() as db:` closes the
session on exit, rolling back everything not committed), Python lists become
`List`, and Python strings in the badge component become `List Char` so that
`split`, `strip` and `join` can be reasoned about directly.
-/

namespace FinBot

/-! ### Navigation stack (`push_nav`, `pop_nav`, `back_handler`) -/

/-- One entry of the per-user navigation stack: the dict `{"view": ...}`. -/
structure Frame where
  view : String
deriving DecidableEq

/-- The root frame `{"view": "main_menu"}`. -/
def mainMenuFrame : Frame := ⟨"main_menu"⟩

/-- `push_nav` (bot.py:1493-1501): re-seed an empty stack with the root frame,
then append `view` unless it equals the current top. -/
def push_nav (stk0 : List Frame) (view : Frame) : List Frame :=
  let stk := if stk0 = [] then [mainMenuFrame] else stk0
  if stk ≠ [] ∧ stk.getLast? = some view then stk
  else stk ++ [view]

/-- `pop_nav` (bot.py:1504-1510): `list.pop()` on the stack; returns `none`
only when the stack is empty.  Result: (stack afterwards, popped frame). -/
def pop_nav (stk : List Frame) : List Frame × Option Frame :=
  if stk = [] then (stk, none)
  else (stk.dropLast, stk.getLast?)

/-- The single nav-stack push performed by the renderer that `back_handler`
dispatches to for a given view (bot.py:3261-3317 together with the pushes
inside `present_quiz_levels` via `start_quiz`, `report_start_via_callback`,
`show_shop`, `show_balance` and `education_callback`; the branches called
with `push=False` / `push_to_nav=False` and the remaining branches push
nothing). -/
def render_push_view (v : String) : Option String :=
  if v = "tips" then none
  else if v = "quiz_start" then some "quiz_levels"
  else if v = "quiz_levels" then none
  else if v.startsWith "quiz_level" then none
  else if v = "scenario_menu" then none
  else if v.startsWith "scenario_play" then none
  else if v = "report_start" then some "report_start"
  else if v = "shop" then some "shop"
  else if v = "balance" then some "balance"
  else if v = "leaderboard" then none
  else if v = "referral" then none
  else if v = "education" ∨ v = "premium" then some "education"
  else none

/-- Effect of `back_handler` (bot.py:3243-3317) on the stored navigation
stack: drop the top frame and read the view below it (main menu when at most
one frame is present), overwrite the stack with the single root frame, then
run the renderer for that view, which may push one frame of its own. -/
def back_handler_nav (stk : List Frame) : List Frame :=
  let view :=
    if 1 < stk.length then ((stk.dropLast.getLast?).map Frame.view).getD "main_menu"
    else "main_menu"
  let reset : List Frame := [mainMenuFrame]
  match render_push_view view with
  | none => reset
  | some w => push_nav reset ⟨w⟩

/-! ### Quiz completion (`finish_quiz`) -/

/-- Python string model for the badge component: a Python `str` is its list
of characters. -/
abbrev PyStr := List Char

/-- Persisted `User` row fields touched by the progression engine. -/
structure UserRec where
  coins : Nat
  quizzesPassed : Nat
  maxUnlockedLevel : Nat
  scenarioScore : Nat
  scenarioBadges : PyStr
deriving DecidableEq

/-- `QUIZ_LEVELS` (bot.py:1182). -/
def QUIZ_LEVELS : List Nat := [1, 2, 3]

/-- `max(QUIZ_LEVELS)` as used in `finish_quiz`. -/
def maxQuizLevel : Nat := QUIZ_LEVELS.foldl Nat.max 0

/-- Fresh `User` row as created by `finish_quiz` (bot.py:2603-2614). -/
def defaultNewUser : UserRec :=
  { coins := 0, quizzesPassed := 0, maxUnlockedLevel := 1,
    scenarioScore := 0, scenarioBadges := [] }

/-- Database effect of `finish_quiz` (bot.py:2578-2661) on the user's row.
`threshold` is `QUIZ_PASS_THRESHOLD` (default 3).  A missing row is created
and committed first (bot.py:2603-2617).  The later `db.commit()`
(bot.py:2637) is indented under the perfect-score branch, so it only runs
when `total > 0 and correct == total and level < max(QUIZ_LEVELS)`; on every
other path the session closes without a commit and the in-session mutations
are rolled back to the last committed state.  Returns the persisted row
after the session closes together with `new_level_unlocked`. -/
def finish_quiz_db (threshold : Nat) (persisted : Option UserRec)
    (correct total level : Nat) : UserRec × Option Nat :=
  let earned := 10 + (if 0 < total ∧ correct = total then 5 else 0)
  let base := persisted.getD defaultNewUser
  let s1 := { base with coins := base.coins + earned }
  let s2 := if threshold ≤ correct
    then { s1 with quizzesPassed := s1.quizzesPassed + 1 } else s1
  if 0 < total ∧ correct = total ∧ level < maxQuizLevel then
    let nextLevel := level + 1
    let currentMax := if s2.maxUnlockedLevel = 0 then 1 else s2.maxUnlockedLevel
    if currentMax < nextLevel then
      ({ s2 with maxUnlockedLevel := nextLevel }, some nextLevel)
    else (s2, none)
  else (base, none)

/-- Persisted row after one completed quiz attempt. -/
def finish_quiz_apply (threshold : Nat) (u : UserRec) (correct total level : Nat) :
    UserRec :=
  (finish_quiz_db threshold (some u) correct total level).1

/-- Persisted row after a sequence of completed quiz attempts, each given as
`(correct, total, level)`. -/
def run_quizzes (threshold : Nat) (u : UserRec) (attempts : List (Nat × Nat × Nat)) :
    UserRec :=
  attempts.foldl (fun v a => finish_quiz_apply threshold v a.1 a.2.1 a.2.2) u

/-! ### Scenario option step (`scenario_option_handler`, tail) -/

/-- One option of a scenario decision node. -/
structure ScenOption where
  label : String
  feedback : String
  impact : String
  next : Option String
deriving DecidableEq

/-- A scenario node, as the fields of the content dicts that the engine
reads: `type` is `"ending"` for terminals, endings carry `outcome` and
`text`. -/
structure ScenNode where
  type : String
  outcome : String
  text : String
  options : List ScenOption
deriving DecidableEq

/-- Where the walk goes after the chosen option (bot.py:2944-2962): either
it concludes with an ending payload `(outcome, text)` or it moves on to a
decision node. -/
inductive StepResult where
  | conclude (outcome : String) (text : String)
  | moveTo (nodeId : String)
deriving DecidableEq

/-- Tail of `scenario_option_handler` (bot.py:2944-2962): `option.get("next")`
falsy (absent or empty) or not resolving in `nodes` concludes with the
synthetic ending `{"type": "ending", "outcome": "fail", "text": feedback}`;
a resolved ending node concludes with that node; otherwise the walk moves to
the resolved decision node. -/
def scenario_option_step (nodes : List (String × ScenNode)) (opt : ScenOption) :
    StepResult :=
  match opt.next with
  | none => .conclude "fail" opt.feedback
  | some nextId =>
    if nextId = "" then .conclude "fail" opt.feedback
    else
      match nodes.lookup nextId with
      | none => .conclude "fail" opt.feedback
      | some node =>
        if node.type = "ending" then .conclude node.outcome node.text
        else .moveTo nextId

/-! ### Referral chain (`process_referral`) -/

/-- A `Referral` row: code, owner, attributed signup, status. -/
structure ReferralRec where
  referral_code : String
  referrer_id : Nat
  referred_id : Option Nat
  status : String
deriving DecidableEq

/-- The part of a `User` row the referral code touches. -/
structure URow where
  telegram_id : Nat
  coins : Nat
deriving DecidableEq

/-- Record-store state seen by `process_referral`. -/
structure RefStore where
  referrals : List ReferralRec
  users : List URow
deriving DecidableEq

/-- Return dict of `process_referral`. -/
structure PRResult where
  success : Bool
  message : Option String
  referrer_id : Option Nat
deriving DecidableEq

/-- In-place mutation of the first row matching `p` (the row object obtained
from `query(...).first()`). -/
def replace_first (p : α → Bool) (f : α → α) : List α → List α
  | [] => []
  | a :: l => if p a then f a :: l else a :: replace_first p f l

/-- `user.coins = (user.coins or 0) + amt` on the row with this id, a no-op
when the row is absent (the code guards with `if referrer_user:` /
`if new_user:`). -/
def bump_coins (uid amt : Nat) (users : List URow) : List URow :=
  replace_first (fun u => u.telegram_id == uid)
    (fun u => { u with coins := u.coins + amt }) users

/-- `db.query(Referral).filter_by(referrer_id=..., status="completed").count()`. -/
def completed_count (refs : List ReferralRec) (referrerId : Nat) : Nat :=
  (refs.filter (fun r => r.referrer_id == referrerId && r.status == "completed")).length

/-- `process_referral` (bot.py:889-928).  Fails without touching the store if
the code is unknown, the code's owner is the new user, or the record is not
pending.  On success: mark the record completed, recount the referrer's
completed referrals (including this one), pay the referrer 50 coins when the
count is a positive multiple of 3, and pay the new user 20 coins. -/
def process_referral (st : RefStore) (code : String) (newUserId : Nat) :
    RefStore × PRResult :=
  match st.referrals.find? (fun r => r.referral_code == code) with
  | none => (st, ⟨false, some "Invalid referral code", none⟩)
  | some r =>
    if r.referrer_id = newUserId then (st, ⟨false, some "Invalid referral code", none⟩)
    else if r.status ≠ "pending" then
      (st, ⟨false, some "Referral already processed", none⟩)
    else
      let refs1 := replace_first (fun x => x.referral_code == code)
        (fun x => { x with referred_id := some newUserId, status := "completed" })
        st.referrals
      let cnt := completed_count refs1 r.referrer_id
      let users1 :=
        if 0 < cnt ∧ cnt % 3 = 0 then bump_coins r.referrer_id 50 st.users
        else st.users
      let users2 := bump_coins newUserId 20 users1
      ({ referrals := refs1, users := users2 }, ⟨true, none, some r.referrer_id⟩)

/-- Coins of the row with the given id, when present. -/
def coins_of (users : List URow) (uid : Nat) : Option Nat :=
  (users.find? (fun u => u.telegram_id == uid)).map URow.coins

/-! ### Leaderboard ranks (`recalculate_leaderboard_ranks`) -/

/-- A `LeaderboardEntry` row. -/
structure LBEntry where
  user_id : Nat
  period : String
  score : Int
  rank : Option Nat
deriving DecidableEq

/-- Descending-score comparison used by `order_by(LeaderboardEntry.score.desc())`. -/
def lbDesc (a b : LBEntry) : Prop := b.score ≤ a.score

instance : DecidableRel lbDesc := fun a b => inferInstanceAs (Decidable (b.score ≤ a.score))

instance : IsTotal LBEntry lbDesc := ⟨fun a b => le_total b.score a.score⟩

instance : IsTrans LBEntry lbDesc := ⟨fun _ _ _ h1 h2 => le_trans h2 h1⟩

/-- `for rank, entry in enumerate(entries, start=1): entry.rank = rank`
(bot.py:986-987). -/
def assign_ranks : Nat → List LBEntry → List LBEntry
  | _, [] => []
  | n, e :: es => { e with rank := some n } :: assign_ranks (n + 1) es

/-- Body of the per-period loop of `recalculate_leaderboard_ranks`
(bot.py:981-987): the period's entries are fetched sorted by descending
score (stably, in stored order for ties) and numbered from 1. -/
def recalc_period_ranks (entries : List LBEntry) : List LBEntry :=
  assign_ranks 1 (List.insertionSort lbDesc entries)

/-- The entry with the rank field cleared, for comparing everything but the
freshly assigned rank. -/
def rankless (e : LBEntry) : LBEntry := { e with rank := none }

/-! ### Badges (`parse_badges`, `add_badge`, `grant_scenario_rewards`) -/

/-- The characters that Python's default `str.strip()` removes. -/
def isPySpace (c : Char) : Bool :=
  c == ' ' || c == '\t' || c == '\n' || c == '\r' || c == '\x0b' || c == '\x0c'

/-- Python `s.strip()`: drop whitespace from both ends. -/
def pyStrip (s : PyStr) : PyStr :=
  List.rdropWhile isPySpace (s.dropWhile isPySpace)

/-- Python `s.split(",")`: one more part than there are commas; the empty
string splits to `[""]`.  A non-comma character is prepended to the first
part of the split of the remainder (which is never empty). -/
def pySplitComma : PyStr → List PyStr
  | [] => [[]]
  | c :: rest =>
    if c = ',' then [] :: pySplitComma rest
    else (c :: (pySplitComma rest).headD []) :: (pySplitComma rest).tail

/-- Python `",".join(parts)`. -/
def pyJoinComma : List PyStr → PyStr
  | [] => []
  | [p] => p
  | p :: q :: rest => p ++ ',' :: pyJoinComma (q :: rest)

/-- `parse_badges` (bot.py:2073-2076): empty string gives no badges, else
split on commas, strip each part, keep the non-empty ones. -/
def parse_badges (badge_str : PyStr) : List PyStr :=
  if badge_str = [] then []
  else ((pySplitComma badge_str).map pyStrip).filter (fun b => !b.isEmpty)

/-- Python `sorted(set(l))`: the distinct elements in increasing order
(order of `sorted` is total, so which duplicates are kept is irrelevant). -/
def sorted_set (l : List PyStr) : List PyStr :=
  List.insertionSort (fun a b => a ≤ b) l.dedup

/-- `add_badge` (bot.py:2079-2083): collect the parsed badges as a set, add
the new badge when it is non-empty (Python truthiness), join back sorted. -/
def add_badge (badge_str badge : PyStr) : PyStr :=
  let badges := parse_badges badge_str
  let badges2 := if badge ≠ [] then badges ++ [badge] else badges
  pyJoinComma (sorted_set badges2)

/-- Return dict of `grant_scenario_rewards`. -/
structure SRResult where
  coins : Nat
  badge : Option PyStr
  score : Nat
  badges : List PyStr
deriving DecidableEq

/-- Database effect of `grant_scenario_rewards` (bot.py:2086-2118) on an
existing user row: compute the updated badge string, detect a new badge by
string inequality, add coins and scenario score for a positive reward, store
the badge string only when it changed, and report. -/
def grant_scenario_rewards (u : UserRec) (reward : Nat) (badge : Option PyStr) :
    UserRec × SRResult :=
  let original := u.scenarioBadges
  let bval := badge.getD []
  let updated := if bval ≠ [] then add_badge original bval else original
  let badge_unlocked := updated ≠ original
  let u1 := if 0 < reward then
      { u with coins := u.coins + reward, scenarioScore := u.scenarioScore + reward }
    else u
  let u2 := if badge_unlocked then { u1 with scenarioBadges := updated } else u1
  (u2,
    { coins := reward,
      badge := if badge_unlocked then badge else none,
      score := u2.scenarioScore,
      badges := parse_badges u2.scenarioBadges })

/-- A badge identifier as they appear in the scenario catalog: non-empty, no
comma, no surrounding whitespace. -/
def CleanBadge (b : PyStr) : Prop :=
  b ≠ [] ∧ pyStrip b = b ∧ ',' ∉ b

/-- A stored badge string in the form the code itself writes (the initial
`""` or an output of `add_badge`): joining its parsed badge set back sorted
reproduces it. -/
def NormalizedBadges (s : PyStr) : Prop :=
  pyJoinComma (sorted_set (parse_badges s)) = s

/-! ## Theorems -/

/-! ### C1: quiz completion reward persistence -/

/-- A persisted user row used as the concrete failing input for C1: 40
coins, 2 quizzes passed, level 1 unlocked. -/
def sampleQuizUser : UserRec :=
  { coins := 40, quizzesPassed := 2, maxUnlockedLevel := 1,
    scenarioScore := 0, scenarioBadges := [] }

/-- Claim C1 (code bug).  The engine does compute
`passed = correct ≥ threshold` and `reward = 10 + 5·[perfect]`, but the
`db.commit()` of `finish_quiz` (bot.py:2637) is indented under the
perfect-score level-unlock branch, so on a non-perfect completion nothing is
committed and closing the session rolls the mutations back.  Here a passing
but imperfect attempt (3 of 5 correct, threshold 3, level 1) leaves the
persisted row exactly as it was: the 10 coins are not added and
`quizzesPassed` is not incremented, contradicting the claim. -/
theorem C1_finish_quiz_commit_skipped :
    finish_quiz_db 3 (some sampleQuizUser) 3 5 1 = (sampleQuizUser, none) := by
  decide

/-! ### C2: `maxUnlockedLevel` monotonicity and unlock conditions -/

/-- Single completed attempt never lowers the persisted `maxUnlockedLevel`. -/
theorem finish_quiz_apply_max_mono (threshold : Nat) (u : UserRec)
    (correct total level : Nat) :
    u.maxUnlockedLevel ≤ (finish_quiz_apply threshold u correct total level).maxUnlockedLevel := by
  unfold finish_quiz_apply finish_quiz_db
  dsimp only [Option.getD_some]
  split_ifs with h1 h2 h3 h4 h5 <;> simp_all
  all_goals omega

/-- Claim C2 (confirmed).  Over any sequence of completed quiz attempts the
persisted `maxUnlockedLevel` never decreases; a single completion changes it
only to `level + 1`, and only for a perfect score (`correct = total`,
`total > 0`) at a level below `max(QUIZ_LEVELS)` whose successor exceeds the
current value; a non-perfect completion never changes it. -/
theorem C2_max_unlocked_level_monotone (threshold : Nat) (u : UserRec) :
    (∀ attempts : List (Nat × Nat × Nat),
        u.maxUnlockedLevel ≤ (run_quizzes threshold u attempts).maxUnlockedLevel) ∧
    (∀ correct total level : Nat,
        (finish_quiz_apply threshold u correct total level).maxUnlockedLevel ≠
            u.maxUnlockedLevel →
          correct = total ∧ 0 < total ∧ level < maxQuizLevel ∧
          u.maxUnlockedLevel < level + 1 ∧
          (finish_quiz_apply threshold u correct total level).maxUnlockedLevel =
            level + 1) ∧
    (∀ correct total level : Nat, correct ≠ total →
        (finish_quiz_apply threshold u correct total level).maxUnlockedLevel =
          u.maxUnlockedLevel) := by
  refine ⟨?_, ?_, ?_⟩
  · intro attempts
    induction attempts generalizing u with
    | nil => exact le_rfl
    | cons a as ih =>
      exact le_trans (finish_quiz_apply_max_mono threshold u a.1 a.2.1 a.2.2)
        (ih (finish_quiz_apply threshold u a.1 a.2.1 a.2.2))
  · intro correct total level hne
    revert hne
    unfold finish_quiz_apply finish_quiz_db
    dsimp only [Option.getD_some]
    split_ifs with h1 h2 h3 h4 h5 <;> simp_all
  · intro correct total level hne
    unfold finish_quiz_apply finish_quiz_db
    dsimp only [Option.getD_some]
    split_ifs with h1 h2 h3 h4 h5 <;> simp_all

/-- Witness for C2 at a concrete input: a non-perfect attempt (2 of 5) on a
fresh user leaves `maxUnlockedLevel` untouched. -/
theorem C2_max_unlocked_level_monotone_witness :
    (finish_quiz_apply 3 defaultNewUser 2 5 1).maxUnlockedLevel =
      defaultNewUser.maxUnlockedLevel :=
  (C2_max_unlocked_level_monotone 3 defaultNewUser).2.2 2 5 1 (by decide)

/-! ### C6: dangling scenario `next` degrades to a `fail` terminal -/

/-- Claim C6 (confirmed).  When the chosen option's `next` is absent, empty,
or does not resolve to an existing node, the walk concludes as a terminal
with synthetic outcome `fail` whose text is the option's own feedback; the
step function is total, so no exception is raised. -/
theorem C6_dangling_next_fails (nodes : List (String × ScenNode)) (opt : ScenOption)
    (h : opt.next = none ∨
         ∃ id, opt.next = some id ∧ (id = "" ∨ nodes.lookup id = none)) :
    scenario_option_step nodes opt = .conclude "fail" opt.feedback := by
  unfold scenario_option_step
  rcases h with h | ⟨id, hid, h⟩
  · rw [h]
  · rw [hid]
    rcases h with h | h
    · simp [h]
    · simp [h]

/-- Witness for C6: a concrete option whose `next` names a missing node. -/
theorem C6_dangling_next_fails_witness :
    scenario_option_step []
        { label := "Reply", feedback := "That was a scam.", impact := "danger",
          next := some "missing_node" } =
      .conclude "fail" "That was a scam." :=
  C6_dangling_next_fails [] _ (Or.inr ⟨"missing_node", rfl, Or.inr rfl⟩)

/-! ### C8: `pop_nav` and the root frame -/

/-- Counterexample to claim C8: on a stack holding only the root frame,
`pop_nav` removes and returns the root (leaving an empty stack) instead of
returning none and leaving the stack alone. -/
theorem C8_pop_nav_counterexample :
    pop_nav [mainMenuFrame] = ([], some mainMenuFrame) ∧
    ([], some mainMenuFrame) ≠ ([mainMenuFrame], (none : Option Frame)) := by
  constructor
  · decide
  · decide

/-- Claim C8 as amended (the root frame is not protected): `pop_nav` removes
and returns the top frame whenever the stack is non-empty — including when
only the root remains, which leaves the stack empty — and returns none,
changing nothing, only when the stack is empty. -/
theorem C8_pop_nav_amended (stk : List Frame) :
    (∀ h : stk ≠ [], pop_nav stk = (stk.dropLast, some (stk.getLast h))) ∧
    (stk = [] → pop_nav stk = (stk, none)) := by
  constructor
  · intro h
    unfold pop_nav
    rw [if_neg h, List.getLast?_eq_getLast_of_ne_nil h]
  · intro h
    unfold pop_nav
    rw [if_pos h]

/-- Witness for C8 (amended) at a concrete two-frame stack. -/
theorem C8_pop_nav_amended_witness :
    pop_nav [mainMenuFrame, ⟨"shop"⟩] = ([mainMenuFrame], some ⟨"shop"⟩) :=
  ((C8_pop_nav_amended [mainMenuFrame, ⟨"shop"⟩]).1 (by decide)).trans (by decide)

/-! ### C9: `push_nav` suppresses a duplicate top -/

/-- Claim C9 (confirmed).  Pushing a frame equal to the current top leaves
the stack unchanged, and from the root `push A, push B, push B` yields
exactly `[root, A, B]`. -/
theorem C9_push_nav_duplicate_top (stk : List Frame) (v : Frame) :
    (stk ≠ [] → stk.getLast? = some v → push_nav stk v = stk) ∧
    push_nav (push_nav (push_nav [mainMenuFrame] ⟨"A"⟩) ⟨"B"⟩) ⟨"B"⟩ =
      [mainMenuFrame, ⟨"A"⟩, ⟨"B"⟩] := by
  constructor
  · intro hne htop
    unfold push_nav
    rw [if_neg hne, if_pos ⟨hne, htop⟩]
  · decide

/-- Witness for C9 at a concrete stack whose top is the pushed frame. -/
theorem C9_push_nav_duplicate_top_witness :
    push_nav [mainMenuFrame, ⟨"shop"⟩] ⟨"shop"⟩ = [mainMenuFrame, ⟨"shop"⟩] :=
  (C9_push_nav_duplicate_top [mainMenuFrame, ⟨"shop"⟩] ⟨"shop"⟩).1 (by decide) (by decide)

/-! ### C10: the stack after a back action -/

/-- Pushing any frame onto the freshly reset root stack keeps the root at
the bottom and adds at most that one frame. -/
theorem push_nav_on_root (f : Frame) :
    push_nav [mainMenuFrame] f = [mainMenuFrame] ∨
    push_nav [mainMenuFrame] f = [mainMenuFrame, f] := by
  by_cases hf : f = mainMenuFrame
  · subst hf
    left
    decide
  · right
    unfold push_nav
    dsimp only
    have h1 : ¬(([mainMenuFrame] : List Frame) = []) := by decide
    have h2 : ¬(([mainMenuFrame] : List Frame) ≠ [] ∧
        ([mainMenuFrame] : List Frame).getLast? = some f) := by
      rintro ⟨-, h2⟩
      simp only [List.getLast?_singleton, Option.some.injEq] at h2
      exact hf h2.symm
    rw [if_neg h1, if_neg h2]
    rfl

/-- Counterexample to claim C10: pressing back on the stack
`[main_menu, balance, shop]` pops to the `balance` view, resets the stored
stack to the root, but the dispatched renderer `show_balance` then pushes
its own frame (bot.py:3347), so the stored stack ends as
`[main_menu, balance]`, not as the single root frame. -/
theorem C10_back_handler_counterexample :
    back_handler_nav [mainMenuFrame, ⟨"balance"⟩, ⟨"shop"⟩] =
        [mainMenuFrame, ⟨"balance"⟩] ∧
    [mainMenuFrame, (⟨"balance"⟩ : Frame)] ≠ [mainMenuFrame] := by
  constructor
  · decide
  · decide

/-- Claim C10 as amended: after any back action the stored stack is the
single root frame optionally followed by the one frame the dispatched
renderer pushes again, hence always root-based and of height at most two. -/
theorem C10_back_handler_amended (stk : List Frame) :
    ∃ t, back_handler_nav stk = mainMenuFrame :: t ∧ t.length ≤ 1 := by
  unfold back_handler_nav
  dsimp only
  split
  · exact ⟨[], rfl, by decide⟩
  · rename_i w _
    rcases push_nav_on_root ⟨w⟩ with h | h
    · exact ⟨[], by rw [h], by decide⟩
    · exact ⟨[⟨w⟩], by rw [h], le_rfl⟩

/-! ### C3, C4: referral processing -/

/-- `find?` after mutating the first match: when the mutation preserves the
predicate, the mutated row is found. -/
theorem find?_replace_first (p : α → Bool) (f : α → α) (l : List α)
    (hpf : ∀ a, p (f a) = p a) :
    (replace_first p f l).find? p = (l.find? p).map f := by
  induction l with
  | nil => rfl
  | cons a l ih =>
    unfold replace_first
    by_cases h : p a = true
    · rw [if_pos h, List.find?_cons_of_pos _ ((hpf a).trans h),
        List.find?_cons_of_pos _ h]
      rfl
    · rw [if_neg h, List.find?_cons_of_neg _ h, List.find?_cons_of_neg _ h, ih]

/-- `find?` for one row is untouched by mutating the first match of a
predicate that cannot hold for that row. -/
theorem find?_replace_first_of_ne (p q : α → Bool) (f : α → α) (l : List α)
    (hqp : ∀ a, q a = true → p a = false)
    (hqf : ∀ a, q (f a) = q a) :
    (replace_first p f l).find? q = l.find? q := by
  induction l with
  | nil => rfl
  | cons a l ih =>
    unfold replace_first
    by_cases hp : p a = true
    · rw [if_pos hp]
      have hqa : q a = false := by
        cases hq : q a
        · rfl
        · exact absurd hp (by simp [hqp a hq])
      rw [List.find?_cons_of_neg _ (by simp [hqf a, hqa]),
        List.find?_cons_of_neg _ (by simp [hqa])]
    · rw [if_neg hp]
      by_cases hq : q a = true
      · rw [List.find?_cons_of_pos _ hq, List.find?_cons_of_pos _ hq]
      · rw [List.find?_cons_of_neg _ hq, List.find?_cons_of_neg _ hq, ih]

/-- Bumping a user's coins is invisible to lookups of a different user. -/
theorem coins_of_bump_other (uid uid2 amt : Nat) (users : List URow) (h : uid ≠ uid2) :
    coins_of (bump_coins uid2 amt users) uid = coins_of users uid := by
  unfold coins_of bump_coins
  rw [find?_replace_first_of_ne _ _ _ _ ?_ ?_]
  · intro a ha
    simp only [beq_iff_eq] at ha ⊢
    simp [ha, h]
  · intro a
    rfl

/-- Bumping a user's coins adds exactly `amt` to that user's looked-up
balance. -/
theorem coins_of_bump_self (uid amt : Nat) (users : List URow) :
    coins_of (bump_coins uid amt users) uid = (coins_of users uid).map (· + amt) := by
  unfold coins_of bump_coins
  rw [find?_replace_first (fun u => u.telegram_id == uid)
    (fun u => { u with coins := u.coins + amt }) users (fun a => rfl)]
  rw [Option.map_map, Option.map_map]
  rfl

/-- The row update written by `process_referral` on success. -/
def complete_update (nid : Nat) (x : ReferralRec) : ReferralRec :=
  { x with referred_id := some nid, status := "completed" }

/-- Reduction of `process_referral` on the success path. -/
theorem process_referral_success (st : RefStore) (code : String) (nid : Nat)
    (r : ReferralRec)
    (hfind : st.referrals.find? (fun x => x.referral_code == code) = some r)
    (hself : r.referrer_id ≠ nid) (hpend : r.status = "pending") :
    process_referral st code nid =
      ({ referrals := replace_first (fun x => x.referral_code == code)
            (complete_update nid) st.referrals,
         users := bump_coins nid 20
            (if 0 < completed_count (replace_first (fun x => x.referral_code == code)
                    (complete_update nid) st.referrals) r.referrer_id ∧
                completed_count (replace_first (fun x => x.referral_code == code)
                    (complete_update nid) st.referrals) r.referrer_id % 3 = 0
              then bump_coins r.referrer_id 50 st.users else st.users) },
       ⟨true, none, some r.referrer_id⟩) := by
  unfold process_referral complete_update
  rw [hfind]
  dsimp only
  rw [if_neg hself, if_neg (not_not_intro hpend)]

/-- Concrete record store for the milestone scenario: referrer `1` holds
five pending codes, users `11`-`15` are the prospective signups. -/
def refStoreA : RefStore :=
  { referrals :=
      [⟨"RC1", 1, none, "pending"⟩, ⟨"RC2", 1, none, "pending"⟩,
       ⟨"RC3", 1, none, "pending"⟩, ⟨"RC4", 1, none, "pending"⟩,
       ⟨"RC5", 1, none, "pending"⟩],
    users := [⟨1, 0⟩, ⟨11, 0⟩, ⟨12, 0⟩, ⟨13, 0⟩, ⟨14, 0⟩, ⟨15, 0⟩] }

/-- Run a sequence of referral completions, keeping the resulting store. -/
def refChain (st : RefStore) : List (String × Nat) → RefStore
  | [] => st
  | (c, u) :: rest => refChain (process_referral st c u).1 rest

/-- If `process_referral` reports success, the code was found, it was not a
self-referral, and the record was still pending. -/
theorem process_referral_success_inv (st : RefStore) (code : String) (nid : Nat)
    (hsuc : (process_referral st code nid).2.success = true) :
    ∃ r, st.referrals.find? (fun x => x.referral_code == code) = some r ∧
      r.referrer_id ≠ nid ∧ r.status = "pending" := by
  cases hf : st.referrals.find? (fun x => x.referral_code == code) with
  | none =>
    unfold process_referral at hsuc
    rw [hf] at hsuc
    simp at hsuc
  | some r =>
    unfold process_referral at hsuc
    rw [hf] at hsuc
    dsimp only at hsuc
    split_ifs at hsuc with h1 h2 h3 <;>
      exact ⟨r, rfl, h1, not_not.mp h2⟩

/-- Claim C4 (confirmed).  `process_referral` fails and leaves the store
untouched when the code is unknown, when the code's owner is the new user,
and when the record is no longer pending; consequently a second call with
the same code — whose record the first successful call flipped to
`completed` — is always rejected without touching the store. -/
theorem C4_process_referral_rejections (st : RefStore) (code : String) (nid : Nat) :
    (st.referrals.find? (fun x => x.referral_code == code) = none →
        process_referral st code nid = (st, ⟨false, some "Invalid referral code", none⟩)) ∧
    (∀ r, st.referrals.find? (fun x => x.referral_code == code) = some r →
        r.referrer_id = nid →
        process_referral st code nid = (st, ⟨false, some "Invalid referral code", none⟩)) ∧
    (∀ r, st.referrals.find? (fun x => x.referral_code == code) = some r →
        r.referrer_id ≠ nid → r.status ≠ "pending" →
        process_referral st code nid =
          (st, ⟨false, some "Referral already processed", none⟩)) ∧
    (∀ nid2, (process_referral st code nid).2.success = true →
        (process_referral (process_referral st code nid).1 code nid2).1 =
          (process_referral st code nid).1 ∧
        (process_referral (process_referral st code nid).1 code nid2).2.success = false) := by
  refine ⟨?_, ?_, ?_, ?_⟩
  · intro h
    unfold process_referral
    rw [h]
  · intro r hf hr
    unfold process_referral
    rw [hf]
    dsimp only
    rw [if_pos hr]
  · intro r hf hself hstat
    unfold process_referral
    rw [hf]
    dsimp only
    rw [if_neg hself, if_pos hstat]
  · intro nid2 hsuc
    obtain ⟨r, hf, hself, hpend⟩ := process_referral_success_inv st code nid hsuc
    have hred := process_referral_success st code nid r hf hself hpend
    rw [hred]
    dsimp only
    have hfind2 : (replace_first (fun x => x.referral_code == code) (complete_update nid)
        st.referrals).find? (fun x => x.referral_code == code) =
        some (complete_update nid r) := by
      rw [find?_replace_first (fun x => x.referral_code == code) (complete_update nid)
        st.referrals (fun a => rfl), hf]
      rfl
    unfold process_referral
    rw [hfind2]
    dsimp only
    have hst : (complete_update nid r).status ≠ "pending" := by
      unfold complete_update
      dsimp only
      decide
    by_cases h2 : (complete_update nid r).referrer_id = nid2
    · rw [if_pos h2]
      exact ⟨rfl, rfl⟩
    · rw [if_neg h2, if_pos hst]
      exact ⟨rfl, rfl⟩

/-- Claim C3 (confirmed).  On a successful completion the new user's stored
balance gains the flat 20-coin signup bonus, and the referrer's balance
gains the 50-coin milestone bonus exactly when the completed-referral count
recomputed after this completion is a positive multiple of 3.  Concretely,
for referrer 1 completing codes RC1..RC5 one at a time, only the third
completion pays the referrer. -/
theorem C3_referral_milestone_bonus (st : RefStore) (code : String) (nid : Nat)
    (r : ReferralRec)
    (hfind : st.referrals.find? (fun x => x.referral_code == code) = some r)
    (hself : r.referrer_id ≠ nid)
    (hpend : r.status = "pending") :
    ((process_referral st code nid).2.success = true ∧
      coins_of (process_referral st code nid).1.users nid =
        (coins_of st.users nid).map (fun c => c + 20) ∧
      coins_of (process_referral st code nid).1.users r.referrer_id =
        (coins_of st.users r.referrer_id).map (fun c =>
          c + (if 0 < completed_count (process_referral st code nid).1.referrals
                    r.referrer_id ∧
                  completed_count (process_referral st code nid).1.referrals
                    r.referrer_id % 3 = 0
                then 50 else 0))) ∧
    (coins_of (refChain refStoreA [("RC1", 11)]).users 1 = some 0 ∧
      coins_of (refChain refStoreA [("RC1", 11)]).users 11 = some 20 ∧
      coins_of (refChain refStoreA [("RC1", 11), ("RC2", 12)]).users 1 = some 0 ∧
      coins_of (refChain refStoreA [("RC1", 11), ("RC2", 12), ("RC3", 13)]).users 1 =
        some 50 ∧
      coins_of (refChain refStoreA
          [("RC1", 11), ("RC2", 12), ("RC3", 13), ("RC4", 14)]).users 1 = some 50 ∧
      coins_of (refChain refStoreA
          [("RC1", 11), ("RC2", 12), ("RC3", 13), ("RC4", 14), ("RC5", 15)]).users 1 =
        some 50) := by
  constructor
  · have hred := process_referral_success st code nid r hfind hself hpend
    rw [hred]
    dsimp only
    refine ⟨rfl, ?_, ?_⟩
    · rw [coins_of_bump_self]
      split_ifs with hm
      · rw [coins_of_bump_other nid r.referrer_id 50 st.users (Ne.symm hself)]
      · rfl
    · rw [coins_of_bump_other r.referrer_id nid 20 _ hself]
      split_ifs with hm
      · rw [coins_of_bump_self]
      · simp
  · refine ⟨by decide, by decide, by decide, by decide, by decide, by decide⟩

/-- Witness for C3 at the concrete store: completing code RC1 for user 11
succeeds. -/
theorem C3_referral_milestone_bonus_witness :
    (process_referral refStoreA "RC1" 11).2.success = true :=
  ((C3_referral_milestone_bonus refStoreA "RC1" 11 ⟨"RC1", 1, none, "pending"⟩
    (by decide) (by decide) rfl).1).1

/-- Witness for C4 at a concrete store: replaying a completed code fails. -/
theorem C4_process_referral_rejections_witness :
    (process_referral (process_referral refStoreA "RC1" 11).1 "RC1" 12).2.success = false :=
  ((C4_process_referral_rejections refStoreA "RC1" 11).2.2.2 12 (by decide)).2

/-! ### C5: rank recomputation -/

/-- Numbering from `n` stamps the ranks `n, n+1, ...` in order. -/
theorem assign_ranks_map_rank (n : Nat) (l : List LBEntry) :
    (assign_ranks n l).map LBEntry.rank = (List.range l.length).map (fun i => some (n + i)) := by
  induction l generalizing n with
  | nil => rfl
  | cons e es ih =>
    simp only [assign_ranks, List.map_cons, List.length_cons, List.range_succ_eq_map,
      List.map_map, ih n.succ]
    have htail : List.map (fun i => (some (n.succ + i) : Option Nat)) (List.range es.length) =
        List.map ((fun i => (some (n + i) : Option Nat)) ∘ Nat.succ) (List.range es.length) :=
      List.map_congr_left fun i _ => by
        simp only [Function.comp_apply]
        exact congrArg some (by omega)
    rw [htail]
    simp

/-- Numbering only rewrites the rank field. -/
theorem assign_ranks_map_rankless (n : Nat) (l : List LBEntry) :
    (assign_ranks n l).map rankless = l.map rankless := by
  induction l generalizing n with
  | nil => rfl
  | cons e es ih => simp only [assign_ranks, List.map_cons, ih n.succ]; rfl

/-- Numbering preserves every score. -/
theorem assign_ranks_map_score (n : Nat) (l : List LBEntry) :
    (assign_ranks n l).map LBEntry.score = l.map LBEntry.score := by
  induction l generalizing n with
  | nil => rfl
  | cons e es ih => simp only [assign_ranks, List.map_cons, ih n.succ]

/-- Numbering commutes with filtering by score. -/
theorem assign_ranks_filter_score (v : Int) (n : Nat) (l : List LBEntry) :
    ((assign_ranks n l).filter (fun e => e.score == v)).map rankless =
      (l.filter (fun e => e.score == v)).map rankless := by
  induction l generalizing n with
  | nil => rfl
  | cons e es ih =>
    by_cases he : e.score == v
    · simp only [assign_ranks, List.filter_cons]
      rw [if_pos he, if_pos he]
      simp only [List.map_cons, ih n.succ]
      rfl
    · simp only [assign_ranks, List.filter_cons]
      rw [if_neg he, if_neg he]
      exact ih n.succ

/-- The stable descending sort of the per-period query preserves, for every
score value, the stored order of the entries holding that score. -/
theorem insertionSort_filter_score (v : Int) (l : List LBEntry) :
    (List.insertionSort lbDesc l).filter (fun e => e.score == v) =
      l.filter (fun e => e.score == v) := by
  induction l with
  | nil => rfl
  | cons a l ih =>
    rw [List.insertionSort, List.orderedInsert_eq_take_drop, List.filter_append]
    by_cases ha : (a.score == v) = true
    · have htake : ((List.insertionSort lbDesc l).takeWhile
          (fun b => decide ¬lbDesc a b)).filter (fun e => e.score == v) = [] := by
        rw [List.filter_eq_nil_iff]
        intro b hb
        have hgt := List.mem_takeWhile_imp hb
        simp only [decide_not, Bool.not_eq_eq_eq_not, Bool.not_true, decide_eq_false_iff_not,
          lbDesc] at hgt
        simp only [beq_iff_eq] at ha ⊢
        intro hbv
        exact hgt (le_of_eq (hbv.trans ha.symm))
      have hsplit : ((List.insertionSort lbDesc l).takeWhile
            (fun b => decide ¬lbDesc a b)).filter (fun e => e.score == v) ++
          ((List.insertionSort lbDesc l).dropWhile
            (fun b => decide ¬lbDesc a b)).filter (fun e => e.score == v) =
          l.filter (fun e => e.score == v) := by
        rw [← List.filter_append, List.takeWhile_append_dropWhile, ih]
      rw [htake, List.nil_append] at hsplit
      rw [htake, List.nil_append]
      simp only [List.filter_cons]
      rw [if_pos ha, if_pos ha, hsplit]
    · simp only [List.filter_cons]
      rw [if_neg ha, if_neg ha,
        ← List.filter_append, List.takeWhile_append_dropWhile, ih]

/-- Claim C5 (confirmed).  After the per-period rank pass: the ranks read in
order are exactly `some 1, ..., some N` (a permutation of `1..N` with no
gaps or duplicates), the entries are ordered by descending score, the entry
multiset (ranks aside) is unchanged, and entries sharing a score stay in
their stored (first-seen) order, so the earlier one gets the lower rank. -/
theorem C5_rank_recompute_permutation (entries : List LBEntry) :
    (recalc_period_ranks entries).map LBEntry.rank =
      (List.range entries.length).map (fun i => some (i + 1)) ∧
    ((recalc_period_ranks entries).map LBEntry.score).Pairwise (fun a b : Int => b ≤ a) ∧
    ((recalc_period_ranks entries).map rankless).Perm (entries.map rankless) ∧
    (∀ v : Int,
      ((recalc_period_ranks entries).filter (fun e => e.score == v)).map rankless =
        (entries.filter (fun e => e.score == v)).map rankless) := by
  refine ⟨?_, ?_, ?_, ?_⟩
  · rw [recalc_period_ranks, assign_ranks_map_rank,
      (List.perm_insertionSort lbDesc entries).length_eq]
    exact List.map_congr_left fun i _ => by rw [Nat.add_comm]
  · rw [recalc_period_ranks, assign_ranks_map_score]
    refine (List.pairwise_map).mpr ?_
    exact List.sorted_insertionSort lbDesc entries
  · rw [recalc_period_ranks, assign_ranks_map_rankless]
    exact (List.perm_insertionSort lbDesc entries).map rankless
  · intro v
    rw [recalc_period_ranks, assign_ranks_filter_score, insertionSort_filter_score]

/-! ### C7: badge set semantics -/

/-- `split` never returns an empty list of parts. -/
theorem pySplitComma_ne_nil (s : PyStr) : pySplitComma s ≠ [] := by
  cases s with
  | nil => simp [pySplitComma]
  | cons c rest =>
    unfold pySplitComma
    by_cases hc : c = ','
    · simp [hc]
    · rw [if_neg hc]
      simp

/-- No part produced by `split(",")` contains a comma. -/
theorem pySplitComma_no_comma (s : PyStr) : ∀ p ∈ pySplitComma s, ',' ∉ p := by
  induction s with
  | nil =>
    intro p hp
    simp [pySplitComma] at hp
    simp [hp]
  | cons c rest ih =>
    intro p hp
    unfold pySplitComma at hp
    by_cases hc : c = ','
    · rw [if_pos hc] at hp
      rcases List.mem_cons.mp hp with h | h
      · simp [h]
      · exact ih p h
    · rw [if_neg hc] at hp
      cases hsp : pySplitComma rest with
      | nil => exact absurd hsp (pySplitComma_ne_nil rest)
      | cons q qs =>
        rw [hsp] at hp
        simp only [List.headD_cons, List.tail_cons] at hp
        rcases List.mem_cons.mp hp with h | h
        · subst h
          intro hmem
          rcases List.mem_cons.mp hmem with h2 | h2
          · exact hc h2.symm
          · exact ih q (hsp ▸ List.mem_cons_self q qs) h2
        · exact ih p (hsp ▸ List.mem_cons_of_mem q h)

/-- Splitting after appending a comma-free chunk and a comma peels off the
chunk. -/
theorem pySplitComma_append (p : PyStr) : ∀ t : PyStr, ',' ∉ p →
    pySplitComma (p ++ ',' :: t) = p :: pySplitComma t := by
  induction p with
  | nil =>
    intro t _
    simp [pySplitComma]
  | cons c cs ih =>
    intro t hp
    have hc : ¬(c = ',') := fun h => hp (List.mem_cons.mpr (Or.inl h.symm))
    have hcs : ',' ∉ cs := fun h => hp (List.mem_cons_of_mem c h)
    show pySplitComma (c :: (cs ++ ',' :: t)) = (c :: cs) :: pySplitComma t
    conv_lhs => unfold pySplitComma
    rw [if_neg hc, ih t hcs]
    simp

/-- Splitting a comma-free string yields that one part. -/
theorem pySplitComma_comma_free (p : PyStr) : ',' ∉ p → pySplitComma p = [p] := by
  induction p with
  | nil => intro _; rfl
  | cons c cs ih =>
    intro hp
    have hc : ¬(c = ',') := fun h => hp (List.mem_cons.mpr (Or.inl h.symm))
    have hcs : ',' ∉ cs := fun h => hp (List.mem_cons_of_mem c h)
    unfold pySplitComma
    rw [if_neg hc, ih hcs]
    rfl

/-- `split` undoes `join` on comma-free parts. -/
theorem pySplitComma_join (parts : List PyStr) (hne : parts ≠ [])
    (hclean : ∀ p ∈ parts, ',' ∉ p) :
    pySplitComma (pyJoinComma parts) = parts := by
  induction parts with
  | nil => exact absurd rfl hne
  | cons p rest ih =>
    cases rest with
    | nil =>
      simp only [pyJoinComma]
      exact pySplitComma_comma_free p (hclean p (by simp))
    | cons q qs =>
      simp only [pyJoinComma]
      rw [pySplitComma_append p _ (hclean p (by simp))]
      rw [ih (by simp) (fun x hx => hclean x (List.mem_cons_of_mem p hx))]

/-- `join` of non-empty parts is non-empty. -/
theorem pyJoinComma_ne_nil (parts : List PyStr) (hne : parts ≠ [])
    (h0 : ∀ p ∈ parts, p ≠ []) : pyJoinComma parts ≠ [] := by
  cases parts with
  | nil => exact absurd rfl hne
  | cons p rest =>
    cases rest with
    | nil => exact h0 p (by simp)
    | cons q qs =>
      simp only [pyJoinComma]
      intro h
      have h2 := (List.append_eq_nil.mp h).2
      exact absurd h2 (by simp)

/-- Everything surviving `strip` was in the original string. -/
theorem pyStrip_subset (s : PyStr) : ∀ c ∈ pyStrip s, c ∈ s := by
  intro c hc
  unfold pyStrip at hc
  have h1 : List.rdropWhile isPySpace (s.dropWhile isPySpace) <+:
      s.dropWhile isPySpace := List.rdropWhile_prefix _ _
  have h2 : c ∈ s.dropWhile isPySpace := h1.sublist.subset hc
  exact (List.dropWhile_sublist _).subset h2

/-- `strip` is idempotent. -/
theorem pyStrip_idem (s : PyStr) : pyStrip (pyStrip s) = pyStrip s := by
  unfold pyStrip
  have hu2 : (s.dropWhile isPySpace).dropWhile isPySpace = s.dropWhile isPySpace :=
    List.dropWhile_idempotent _ _
  have hw2 : List.rdropWhile isPySpace
      (List.rdropWhile isPySpace (s.dropWhile isPySpace)) =
      List.rdropWhile isPySpace (s.dropWhile isPySpace) :=
    List.rdropWhile_idempotent _ _
  have hdw : (List.rdropWhile isPySpace (s.dropWhile isPySpace)).dropWhile isPySpace =
      List.rdropWhile isPySpace (s.dropWhile isPySpace) := by
    cases hwe : List.rdropWhile isPySpace (s.dropWhile isPySpace) with
    | nil => rfl
    | cons a t =>
      have hpre : List.rdropWhile isPySpace (s.dropWhile isPySpace) <+:
          s.dropWhile isPySpace := List.rdropWhile_prefix _ _
      obtain ⟨rtail, hr⟩ := hpre
      rw [hwe] at hr
      have hna : ¬(isPySpace a = true) := by
        intro ha
        have := hu2
        rw [← hr] at this
        rw [List.cons_append, List.dropWhile_cons_of_pos ha] at this
        have hlen := congrArg List.length this
        have hle : (List.dropWhile isPySpace (t ++ rtail)).length ≤ (t ++ rtail).length :=
          (List.dropWhile_sublist _).length_le
        simp at hlen hle
        omega
      rw [List.dropWhile_cons_of_neg hna]
  rw [hdw, hw2]

/-- Every badge produced by `parse_badges` is non-empty, strip-fixed and
comma-free. -/
theorem parse_mem_clean (s : PyStr) : ∀ x ∈ parse_badges s, CleanBadge x := by
  intro x hx
  unfold parse_badges at hx
  by_cases hs : s = []
  · rw [if_pos hs] at hx
    exact absurd hx (by simp)
  · rw [if_neg hs] at hx
    obtain ⟨hx1, hx2⟩ := List.mem_filter.mp hx
    obtain ⟨y, hy, hxy⟩ := List.mem_map.mp hx1
    refine ⟨by simpa using hx2, ?_, ?_⟩
    · rw [← hxy]
      exact pyStrip_idem y
    · rw [← hxy]
      intro hmem
      exact pySplitComma_no_comma s y hy (pyStrip_subset y ',' hmem)

/-- Parsing the sorted join of clean parts returns exactly those parts. -/
theorem parse_badges_join (parts : List PyStr) (hne : parts ≠ [])
    (hclean : ∀ p ∈ parts, CleanBadge p) :
    parse_badges (pyJoinComma parts) = parts := by
  unfold parse_badges
  rw [if_neg (pyJoinComma_ne_nil parts hne (fun p hp => (hclean p hp).1))]
  rw [pySplitComma_join parts hne (fun p hp => (hclean p hp).2.2)]
  have hmap : parts.map pyStrip = parts.map id :=
    List.map_congr_left fun p hp => (hclean p hp).2.1
  rw [hmap, List.map_id]
  rw [List.filter_eq_self.mpr ?_]
  intro a ha
  simpa using (hclean a ha).1

/-- Membership in the sorted set is membership in the underlying list. -/
theorem mem_sorted_set (x : PyStr) (l : List PyStr) : x ∈ sorted_set l ↔ x ∈ l := by
  unfold sorted_set
  rw [(List.perm_insertionSort _ _).mem_iff, List.mem_dedup]

/-- The sorted set has no duplicates. -/
theorem sorted_set_nodup (l : List PyStr) : (sorted_set l).Nodup :=
  (List.perm_insertionSort _ _).nodup_iff.mpr (List.nodup_dedup l)

/-- The sorted set is sorted. -/
theorem sorted_set_sorted (l : List PyStr) :
    List.Sorted (fun a b : PyStr => a ≤ b) (sorted_set l) :=
  List.sorted_insertionSort _ _

/-- `sorted(set(...))` depends only on membership. -/
theorem sorted_set_congr (l1 l2 : List PyStr) (h : ∀ x, x ∈ l1 ↔ x ∈ l2) :
    sorted_set l1 = sorted_set l2 := by
  refine List.eq_of_perm_of_sorted ?_ (sorted_set_sorted l1) (sorted_set_sorted l2)
  exact (List.perm_ext_iff_of_nodup (sorted_set_nodup l1) (sorted_set_nodup l2)).mpr
    (fun a => by rw [mem_sorted_set, mem_sorted_set]; exact h a)

/-- `sorted(set(...))` is idempotent. -/
theorem sorted_set_idem (l : List PyStr) : sorted_set (sorted_set l) = sorted_set l := by
  unfold sorted_set
  rw [List.dedup_eq_self.mpr ((List.perm_insertionSort _ _).nodup_iff.mpr (List.nodup_dedup l))]
  exact List.Sorted.insertionSort_eq (List.sorted_insertionSort _ _)

/-- `add_badge` with a non-empty badge, unfolded. -/
theorem add_badge_eq (s b : PyStr) (hb : b ≠ []) :
    add_badge s b = pyJoinComma (sorted_set (parse_badges s ++ [b])) := by
  unfold add_badge
  dsimp only
  rw [if_pos hb]

/-- Every element of the updated badge set is clean when the new badge is. -/
theorem sorted_set_parse_clean (s b : PyStr) (hb : CleanBadge b) :
    ∀ p ∈ sorted_set (parse_badges s ++ [b]), CleanBadge p := by
  intro p hp
  rcases List.mem_append.mp ((mem_sorted_set p _).mp hp) with h | h
  · exact parse_mem_clean s p h
  · rw [List.mem_singleton.mp h]
    exact hb

/-- The badge just added is parsed back out of the stored string. -/
theorem add_badge_mem (s b : PyStr) (hb : CleanBadge b) :
    b ∈ parse_badges (add_badge s b) := by
  have hbmem : b ∈ sorted_set (parse_badges s ++ [b]) :=
    (mem_sorted_set b _).mpr (List.mem_append.mpr (Or.inr (List.mem_singleton.mpr rfl)))
  rw [add_badge_eq s b hb.1,
    parse_badges_join _ (List.ne_nil_of_mem hbmem) (sorted_set_parse_clean s b hb)]
  exact hbmem

/-- `add_badge` writes strings in normal form. -/
theorem add_badge_normalized (s b : PyStr) (hb : CleanBadge b) :
    NormalizedBadges (add_badge s b) := by
  have hbmem : b ∈ sorted_set (parse_badges s ++ [b]) :=
    (mem_sorted_set b _).mpr (List.mem_append.mpr (Or.inr (List.mem_singleton.mpr rfl)))
  unfold NormalizedBadges
  rw [add_badge_eq s b hb.1,
    parse_badges_join _ (List.ne_nil_of_mem hbmem) (sorted_set_parse_clean s b hb),
    sorted_set_idem]

/-- Adding a badge already present in a normal-form string changes nothing. -/
theorem add_badge_of_held (s b : PyStr) (hn : NormalizedBadges s)
    (hmem : b ∈ parse_badges s) : add_badge s b = s := by
  have hb1 : b ≠ [] := (parse_mem_clean s b hmem).1
  rw [add_badge_eq s b hb1]
  have hms : sorted_set (parse_badges s ++ [b]) = sorted_set (parse_badges s) := by
    refine sorted_set_congr _ _ fun x => ?_
    rw [List.mem_append, List.mem_singleton]
    constructor
    · rintro (h | h)
      · exact h
      · exact h ▸ hmem
    · exact Or.inl
  rw [hms]
  exact hn

/-- Claim C7 (confirmed).  Granting a badge the user already holds — with
the stored string in the normal form the code itself writes (the initial
empty string or an `add_badge` output) — leaves the stored badge string
unchanged and reports no badge granted (`badge = none`) while the call
still returns its normal result (`coins = reward`); and for catalog-style
badge identifiers, adding the same badge twice produces the same stored
badge string as adding it once. -/
theorem C7_badge_grant_idempotent :
    (∀ (u : UserRec) (reward : Nat) (b : PyStr),
        NormalizedBadges u.scenarioBadges → b ∈ parse_badges u.scenarioBadges →
        (grant_scenario_rewards u reward (some b)).1.scenarioBadges = u.scenarioBadges ∧
        (grant_scenario_rewards u reward (some b)).2.badge = none ∧
        (grant_scenario_rewards u reward (some b)).2.coins = reward) ∧
    (∀ s b : PyStr, CleanBadge b → add_badge (add_badge s b) b = add_badge s b) := by
  constructor
  · intro u reward b hn hmem
    have hb1 : b ≠ [] := (parse_mem_clean _ b hmem).1
    have hupd : add_badge u.scenarioBadges b = u.scenarioBadges :=
      add_badge_of_held _ _ hn hmem
    unfold grant_scenario_rewards
    dsimp only [Option.getD_some]
    rw [if_pos hb1, hupd]
    have h2 : ¬(u.scenarioBadges ≠ u.scenarioBadges) := fun h => h rfl
    rw [if_neg h2, if_neg h2]
    refine ⟨?_, rfl, rfl⟩
    split_ifs <;> rfl
  · intro s b hb
    exact add_badge_of_held _ _ (add_badge_normalized s b hb) (add_badge_mem s b hb)

/-- Witness for C7: the user already holds badge `alpha`; regranting it
changes nothing and reports no new badge. -/
theorem C7_badge_grant_idempotent_witness :
    (grant_scenario_rewards
        { coins := 0, quizzesPassed := 0, maxUnlockedLevel := 1,
          scenarioScore := 0, scenarioBadges := "alpha".toList }
        30 (some ("alpha".toList))).2.badge = none :=
  (C7_badge_grant_idempotent.1
    { coins := 0, quizzesPassed := 0, maxUnlockedLevel := 1,
      scenarioScore := 0, scenarioBadges := "alpha".toList }
    30 ("alpha".toList) (by unfold NormalizedBadges; decide) (by decide)).2.1

end FinBot
